import Mathlib

/-!
Shallow embedding of the ambiguous-value decoding and reference-resolution
subsystem of `github-actions-models` (`src/common.rs`, `src/common/expr.rs`,
`src/workflow/event.rs`, `src/workflow/job.rs`), together with proofs about
its behaviour.

Strings are modelled as `List Char`; the Rust string primitives used by the
source (`trim`, `starts_with`, `ends_with`, `strip_prefix`, `strip_suffix`,
`split_once`, `rsplit_once`, `splitn`, `find`, `contains`, `split_at`) are
modelled as executable functions below.
-/

deriving instance DecidableEq for Except

namespace GAM

/-- Strings, modelled as lists of characters. -/
abbrev Str := List Char

/-- Convert a Lean string literal to the `Str` model. -/
def chars (s : String) : Str := s.toList

/-- Whitespace predicate used by `str::trim`. -/
def ws (c : Char) : Bool := c.isWhitespace

/-- Model of `str::trim`: remove leading and trailing whitespace. -/
def trim (s : Str) : Str := (s.dropWhile ws).rdropWhile ws

/-- Model of `str::strip_prefix` for a string pattern: if `p` is a prefix of
`s`, return the remainder, otherwise `none`. -/
def stripPre : Str → Str → Option Str
  | [], s => some s
  | _ :: _, [] => none
  | p :: ps, c :: cs => if p = c then stripPre ps cs else none

/-- Model of `str::strip_suffix` for a string pattern. -/
def stripSuf (p s : Str) : Option Str :=
  (stripPre p.reverse s.reverse).map List.reverse

/-- Model of `str::starts_with` for a string pattern. -/
def startsWith (p s : Str) : Bool := (stripPre p s).isSome

/-- Model of `str::ends_with` for a string pattern. -/
def endsWith (p s : Str) : Bool := (stripSuf p s).isSome

/-- Model of `str::split_once`: split on the first occurrence of `c`. -/
def splitOnce (c : Char) : Str → Option (Str × Str)
  | [] => none
  | x :: xs =>
    if x = c then some ([], xs)
    else
      match splitOnce c xs with
      | some (l, r) => some (x :: l, r)
      | none => none

/-- Model of `str::rsplit_once`: split on the last occurrence of `c`,
returning (left, right). -/
def rsplitOnce (c : Char) : Str → Option (Str × Str)
  | [] => none
  | x :: xs =>
    match rsplitOnce c xs with
    | some (l, r) => some (x :: l, r)
    | none => if x = c then some ([], xs) else none

/-- Model of `str::splitn(3, c)`: split on `c` into at most three pieces,
the last piece keeping any further separators. -/
def splitn3 (c : Char) (s : Str) : List Str :=
  match splitOnce c s with
  | none => [s]
  | some (a, rest) =>
    match splitOnce c rest with
    | none => [a, rest]
    | some (b, rest2) => [a, b, rest2]

/-- Model of `str::find` for a char pattern: index of the first occurrence. -/
def findCharIdx (c : Char) : Str → Option Nat
  | [] => none
  | x :: xs => if x = c then some 0 else (findCharIdx c xs).map (· + 1)

/-- Model of `str::contains` for a char pattern. -/
def containsChar (c : Char) : Str → Bool
  | [] => false
  | x :: xs => x = c || containsChar c xs

/-- The opening expression delimiter of `src/common/expr.rs`. -/
def exprOpen : Str := ['$', '\x7b', '\x7b']

/-- The closing expression delimiter of `src/common/expr.rs`. -/
def exprClose : Str := ['\x7d', '\x7d']

/-- `ExplicitExpr` from `src/common/expr.rs`: an explicit GitHub Actions
expression, fenced by the curly delimiters; stores the full original string. -/
structure ExplicitExpr where
  raw : Str
deriving DecidableEq

/-- `ExplicitExpr::from_curly` (`src/common/expr.rs` lines 14-24): succeeds
iff the trimmed input starts with the opening delimiter and ends with the
closing one; stores the original, untrimmed string. -/
def ExplicitExpr.fromCurly (expr : Str) : Option ExplicitExpr :=
  let trimmed := trim expr
  if !startsWith exprOpen trimmed || !endsWith exprClose trimmed then none
  else some ⟨expr⟩

/-- `ExplicitExpr::as_raw`: the original underlying string. -/
def ExplicitExpr.asRaw (e : ExplicitExpr) : Str := e.raw

/-- `ExplicitExpr::as_curly`: the trimmed form, delimiters kept. -/
def ExplicitExpr.asCurly (e : ExplicitExpr) : Str := trim e.asRaw

/-- `ExplicitExpr::as_bare` (`src/common/expr.rs` lines 43-50): strip the
outer delimiters from the curly form and trim the body. The source `expect`s
on failure (a fatal invariant violation); the fatal branch is modelled as
`none`. -/
def ExplicitExpr.asBare (e : ExplicitExpr) : Option Str :=
  ((stripPre exprOpen e.asCurly).bind (fun t => stripSuf exprClose t)).map
    (fun t => trim t)

/-- `Deserialize for ExplicitExpr` (`src/common/expr.rs` lines 53-68) applied
to a string input: route through `from_curly`, turning failure into a decode
error. -/
def explicitExprDeserialize (raw : Str) : Except Str ExplicitExpr :=
  match ExplicitExpr.fromCurly raw with
  | some e => .ok e
  | none =>
    .error (chars ("invalid expression: expected delimiters"))

/-- `LoE<T>` from `src/common/expr.rs`: a literal or an expression. -/
inductive LoE (T : Type)
  | Expr (e : ExplicitExpr)
  | Literal (t : T)
deriving DecidableEq

/-- Untagged deserialization of `LoE<String>` applied to a string input:
serde tries the variants in declaration order, so the `Expr` variant (via
`ExplicitExpr::deserialize`) is attempted before the `Literal` fallback,
which always succeeds for a string target. -/
def loeStringDeserialize (s : Str) : LoE Str :=
  match explicitExprDeserialize s with
  | .ok e => .Expr e
  | .error _ => .Literal s

/-- `UsesError` from `src/common.rs`: a malformed `uses` ref. -/
structure UsesError where
  msg : Str
deriving DecidableEq

/-- `LocalUses` from `src/common.rs`: a `uses: ./some/path` clause. -/
structure LocalUses where
  path : Str
deriving DecidableEq

/-- `RepositoryUses` from `src/common.rs`: a `uses: some/repo` clause. -/
structure RepositoryUses where
  owner : Str
  repo : Str
  subpath : Option Str
  git_ref : Option Str
deriving DecidableEq

/-- `DockerUses` from `src/common.rs`: a `uses: docker://some-image` clause. -/
structure DockerUses where
  registry : Option Str
  image : Str
  tag : Option Str
  hash : Option Str
deriving DecidableEq

/-- `Uses` from `src/common.rs`: a local, repository, or Docker reference. -/
inductive Uses
  | Local (u : LocalUses)
  | Repository (u : RepositoryUses)
  | Docker (u : DockerUses)
deriving DecidableEq

/-- `LocalUses::from_str` (`src/common.rs` lines 208-214): store the whole
string verbatim as the path. -/
def LocalUses.fromStr (uses : Str) : Except UsesError LocalUses :=
  .ok { path := uses }

/-- `RepositoryUses::from_str` (`src/common.rs` lines 229-259): split on the
last `@` into path and ref, then split the path on `/` into at most three
components; fewer than two components is a parse error. -/
def RepositoryUses.fromStr (uses : Str) : Except UsesError RepositoryUses :=
  let pr : Str × Option Str :=
    match rsplitOnce '@' uses with
    | some (path, git_ref) => (path, some git_ref)
    | none => (uses, none)
  -- The source checks `components.len() < 2` and then indexes components
  -- 0, 1 and optionally 2; `splitn3` yields at most three components, so
  -- the match below is that exact check.
  match splitn3 '/' pr.1 with
  | c0 :: c1 :: rest =>
    .ok { owner := c0, repo := c1, subpath := rest.head?, git_ref := pr.2 }
  | _ =>
    .error ⟨chars ("owner/repo slug is too short: ") ++ uses⟩

/-- `DockerUses::is_registry` (`src/common.rs` lines 275-278). -/
def DockerUses.isRegistry (registry : Str) : Bool :=
  registry = chars ("localhost") || containsChar '.' registry ||
    containsChar ':' registry

/-- `DockerUses::from_str` (`src/common.rs` lines 281-323): split off a
registry on the first `/` when the left segment looks like a registry; then
either split off a hash at the first `@` (via `find` and `split_at`, the
hash side keeping the `@` before the `is_empty` test), or split off a tag at
the first `:` (an empty tag normalizing to `None`). -/
def DockerUses.fromStr (uses : Str) : Except UsesError DockerUses :=
  let ri : Option Str × Str :=
    match splitOnce '/' uses with
    | some (registry, image) =>
      if DockerUses.isRegistry registry then (some registry, image)
      else (none, uses)
    | none => (none, uses)
  match findCharIdx '@' ri.2 with
  | some atPos =>
    let image := ri.2.take atPos
    let hash := ri.2.drop atPos
    let hash := if hash.isEmpty then none else some (hash.drop 1)
    .ok { registry := ri.1, image := image, tag := none, hash := hash }
  | none =>
    let it : Str × Option Str :=
      match splitOnce ':' ri.2 with
      | some (image, []) => (image, none)
      | some (image, tag) => (image, some tag)
      | none => (ri.2, none)
    .ok { registry := ri.1, image := it.1, tag := it.2, hash := none }

/-- `Uses::from_str` (`src/common.rs` lines 188-200): dispatch on a `./`
prefix (local), then a `docker://` prefix (Docker), else repository. -/
def Uses.fromStr (uses : Str) : Except UsesError Uses :=
  if startsWith (chars ("./")) uses then
    (LocalUses.fromStr uses).map Uses.Local
  else
    match stripPre (chars ("docker://")) uses with
    | some image => (DockerUses.fromStr image).map Uses.Docker
    | none => (RepositoryUses.fromStr uses).map Uses.Repository

/-- `step_uses` (`src/common.rs` lines 326-332) applied to a string input:
parse, turning a `UsesError` into a decode error via its `Display` form. -/
def stepUses (uses : Str) : Except Str Uses :=
  match Uses.fromStr uses with
  | .ok u => .ok u
  | .error e => .error (chars ("malformed `uses` ref: ") ++ e.msg)

/-- `reusable_step_uses` (`src/common.rs` lines 335-370): like `step_uses`,
then reject repository references with no ref, local references whose path
contains `@`, and all Docker references. -/
def reusableStepUses (uses : Str) : Except Str Uses :=
  match stepUses uses with
  | .error e => .error e
  | .ok u =>
    match u with
    | .Repository repo =>
      if repo.git_ref.isNone then
        .error (chars ("repo action must have `@<ref>` in reusable workflow"))
      else .ok u
    | .Local l =>
      if containsChar '@' l.path then
        .error
          (chars ("local reusable workflow reference can't specify `@<ref>`"))
      else .ok u
    | .Docker _ =>
      .error (chars ("docker action invalid in reusable workflow `uses`"))

/-- `RunsOn` from `src/workflow/job.rs` lines 41-54: a bare target-label
shape or a runner-group shape. -/
inductive RunsOn
  | Target (labels : List Str)
  | Group (group : Option Str) (labels : List Str)
deriving DecidableEq

/-- The invariant check of `Deserialize for RunsOn` (`src/workflow/job.rs`
lines 56-76), run on the structurally decoded value: a group shape must
carry a group name or at least one label. -/
def RunsOn.validate (runsOn : RunsOn) : Except Str RunsOn :=
  match runsOn with
  | .Group group labels =>
    if group.isNone && labels.isEmpty then
      .error
        (chars ("runs-on must provide either `group` or one or more `labels`"))
    else .ok runsOn
  | _ => .ok runsOn

/-- `EnvValue` from `src/common.rs`: a string, number, or boolean scalar.
The `f64` payload is only carried, never computed on, and is modelled as a
rational number. -/
inductive EnvValue
  | String (s : Str)
  | Number (n : Rat)
  | Boolean (b : Bool)

/-- `OptionalBody<T>` from `src/workflow/event.rs` lines 160-166: a missing
key, a present-but-null key, or a present body. -/
inductive OptionalBody (T : Type)
  | Default
  | Missing
  | Body (t : T)

/-- `matches!(_, OptionalBody::Missing)` as used by `Events::count`. -/
def OptionalBody.isMissing : OptionalBody T → Bool
  | .Missing => true
  | _ => false

/-- `From<Option<T>> for OptionalBody<T>` (`src/workflow/event.rs` lines
180-187). -/
def OptionalBody.fromOption : Option T → OptionalBody T
  | some v => .Body v
  | none => .Default

/-- One field position of a YAML mapping, as seen by the decoder: the key is
absent, or present with an optional (possibly null) value. -/
inductive YamlField (T : Type)
  | Absent
  | Present (value : Option T)

/-- Decoding of one `OptionalBody` field of the `#[serde(default)]` `Events`
record: an absent key takes the derived `Default` (the `#[default]` variant
`Missing`, `src/workflow/event.rs` lines 160-166), and a present key goes
through `Option::deserialize(..).map(Into::into)` (lines 168-178). -/
def decodeOptionalBodyField : YamlField T → OptionalBody T
  | .Absent => .Missing
  | .Present v => OptionalBody.fromOption v

/-- `GenericEvent` from `src/workflow/event.rs`. -/
structure GenericEvent where
  types : List Str

/-- `BranchFilters` from `src/workflow/event.rs`. -/
inductive BranchFilters
  | Branches (v : List Str)
  | BranchesIgnore (v : List Str)

/-- `TagFilters` from `src/workflow/event.rs`. -/
inductive TagFilters
  | Tags (v : List Str)
  | TagsIgnore (v : List Str)

/-- `PathFilters` from `src/workflow/event.rs`. -/
inductive PathFilters
  | Paths (v : List Str)
  | PathsIgnore (v : List Str)

/-- `PullRequest` event body from `src/workflow/event.rs`. -/
structure PullRequest where
  types : List Str
  branch_filters : Option BranchFilters
  path_filters : Option PathFilters

/-- `Push` event body from `src/workflow/event.rs`. -/
structure Push where
  branch_filters : Option BranchFilters
  path_filters : Option PathFilters
  tag_filters : Option TagFilters

/-- `Cron` entry from `src/workflow/event.rs`. -/
structure Cron where
  cron : Str

/-- `WorkflowCallInput` from `src/workflow/event.rs`. -/
structure WorkflowCallInput where
  description : Option Str
  required : Bool
  type : Str

/-- `WorkflowCallOutput` from `src/workflow/event.rs`. -/
structure WorkflowCallOutput where
  description : Option Str
  value : Str

/-- `WorkflowCallSecret` from `src/workflow/event.rs`. -/
structure WorkflowCallSecret where
  description : Option Str
  required : Bool

/-- `WorkflowCall` event body from `src/workflow/event.rs`; the `IndexMap`s
are modelled as insertion-ordered association lists. -/
structure WorkflowCall where
  inputs : List (Str × WorkflowCallInput)
  outputs : List (Str × WorkflowCallOutput)
  secrets : List (Str × Option WorkflowCallSecret)

/-- `WorkflowDispatchInput` from `src/workflow/event.rs`. -/
structure WorkflowDispatchInput where
  description : Option Str
  required : Bool
  type : Option Str
  options : List EnvValue

/-- `WorkflowDispatch` event body from `src/workflow/event.rs`. -/
structure WorkflowDispatch where
  inputs : List (Str × WorkflowDispatchInput)

/-- `WorkflowRun` event body from `src/workflow/event.rs`. -/
structure WorkflowRun where
  workflows : List Str
  types : List Str
  branch_filters : Option BranchFilters

/-- `Events` from `src/workflow/event.rs` lines 60-98: the
`#[serde(default)]` record of event triggers with bodies. -/
structure Events where
  branch_protection_rule : OptionalBody GenericEvent
  check_run : OptionalBody GenericEvent
  check_suite : OptionalBody GenericEvent
  discussion : OptionalBody GenericEvent
  discussion_comment : OptionalBody GenericEvent
  issue_comment : OptionalBody GenericEvent
  issues : OptionalBody GenericEvent
  label : OptionalBody GenericEvent
  merge_group : OptionalBody GenericEvent
  milestone : OptionalBody GenericEvent
  project : OptionalBody GenericEvent
  project_card : OptionalBody GenericEvent
  project_column : OptionalBody GenericEvent
  pull_request : OptionalBody PullRequest
  pull_request_comment : OptionalBody GenericEvent
  pull_request_review : OptionalBody GenericEvent
  pull_request_review_comment : OptionalBody GenericEvent
  pull_request_target : OptionalBody PullRequest
  push : OptionalBody Push
  registry_package : OptionalBody GenericEvent
  release : OptionalBody GenericEvent
  repository_dispatch : OptionalBody GenericEvent
  schedule : OptionalBody (List Cron)
  watch : OptionalBody GenericEvent
  workflow_call : OptionalBody WorkflowCall
  workflow_dispatch : OptionalBody WorkflowDispatch
  workflow_run : OptionalBody WorkflowRun

/-- `Events::count` (`src/workflow/event.rs` lines 100-151): start from zero
and bump the count once for every field that is not `Missing`, in field
order, exactly as the `count_if_present!` macro expands. -/
def Events.count (e : Events) : Nat :=
  let count : Nat := 0
  let count := if !e.branch_protection_rule.isMissing then count + 1 else count
  let count := if !e.check_run.isMissing then count + 1 else count
  let count := if !e.check_suite.isMissing then count + 1 else count
  let count := if !e.discussion.isMissing then count + 1 else count
  let count := if !e.discussion_comment.isMissing then count + 1 else count
  let count := if !e.issue_comment.isMissing then count + 1 else count
  let count := if !e.issues.isMissing then count + 1 else count
  let count := if !e.label.isMissing then count + 1 else count
  let count := if !e.merge_group.isMissing then count + 1 else count
  let count := if !e.milestone.isMissing then count + 1 else count
  let count := if !e.project.isMissing then count + 1 else count
  let count := if !e.project_card.isMissing then count + 1 else count
  let count := if !e.project_column.isMissing then count + 1 else count
  let count := if !e.pull_request.isMissing then count + 1 else count
  let count := if !e.pull_request_comment.isMissing then count + 1 else count
  let count := if !e.pull_request_review.isMissing then count + 1 else count
  let count :=
    if !e.pull_request_review_comment.isMissing then count + 1 else count
  let count := if !e.pull_request_target.isMissing then count + 1 else count
  let count := if !e.push.isMissing then count + 1 else count
  let count := if !e.registry_package.isMissing then count + 1 else count
  let count := if !e.release.isMissing then count + 1 else count
  let count := if !e.repository_dispatch.isMissing then count + 1 else count
  let count := if !e.schedule.isMissing then count + 1 else count
  let count := if !e.watch.isMissing then count + 1 else count
  let count := if !e.workflow_call.isMissing then count + 1 else count
  let count := if !e.workflow_dispatch.isMissing then count + 1 else count
  let count := if !e.workflow_run.isMissing then count + 1 else count
  count

/-- Specification-side view of an `Events` record: the presence flag (state
other than `Missing`) of each of its event-trigger fields, in field order.
The claim's "number of trigger fields whose state is not Missing" is the
number of `true` entries of this list. -/
def Events.presenceFlags (e : Events) : List Bool :=
  [!e.branch_protection_rule.isMissing,
   !e.check_run.isMissing,
   !e.check_suite.isMissing,
   !e.discussion.isMissing,
   !e.discussion_comment.isMissing,
   !e.issue_comment.isMissing,
   !e.issues.isMissing,
   !e.label.isMissing,
   !e.merge_group.isMissing,
   !e.milestone.isMissing,
   !e.project.isMissing,
   !e.project_card.isMissing,
   !e.project_column.isMissing,
   !e.pull_request.isMissing,
   !e.pull_request_comment.isMissing,
   !e.pull_request_review.isMissing,
   !e.pull_request_review_comment.isMissing,
   !e.pull_request_target.isMissing,
   !e.push.isMissing,
   !e.registry_package.isMissing,
   !e.release.isMissing,
   !e.repository_dispatch.isMissing,
   !e.schedule.isMissing,
   !e.watch.isMissing,
   !e.workflow_call.isMissing,
   !e.workflow_dispatch.isMissing,
   !e.workflow_run.isMissing]

/-! Helper lemmas about the string model. -/

theorem stripPre_eq_some {p s r : Str} : stripPre p s = some r ↔ s = p ++ r := by
  induction p generalizing s with
  | nil => simp [stripPre]
  | cons a ps ih =>
    cases s with
    | nil => simp [stripPre]
    | cons c cs =>
      simp only [stripPre, List.cons_append, List.cons.injEq]
      by_cases h : a = c
      · subst h
        simp [ih]
      · rw [if_neg h]
        simp [Ne.symm h]

theorem stripSuf_eq_some {p s r : Str} : stripSuf p s = some r ↔ s = r ++ p := by
  simp only [stripSuf, Option.map_eq_some']
  constructor
  · rintro ⟨r', hr', rfl⟩
    rw [stripPre_eq_some] at hr'
    have h := congrArg List.reverse hr'
    simpa using h
  · rintro rfl
    refine ⟨r.reverse, ?_, by simp⟩
    rw [stripPre_eq_some]
    simp

theorem startsWith_iff {p s : Str} : startsWith p s = true ↔ ∃ r, s = p ++ r := by
  simp only [startsWith, Option.isSome_iff_exists]
  constructor
  · rintro ⟨r, hr⟩
    exact ⟨r, stripPre_eq_some.mp hr⟩
  · rintro ⟨r, rfl⟩
    exact ⟨r, stripPre_eq_some.mpr rfl⟩

theorem endsWith_iff {p s : Str} : endsWith p s = true ↔ ∃ r, s = r ++ p := by
  simp only [endsWith, Option.isSome_iff_exists]
  constructor
  · rintro ⟨r, hr⟩
    exact ⟨r, stripSuf_eq_some.mp hr⟩
  · rintro ⟨r, rfl⟩
    exact ⟨r, stripSuf_eq_some.mpr rfl⟩

theorem stripPre_append (p r : Str) : stripPre p (p ++ r) = some r :=
  stripPre_eq_some.mpr rfl

theorem stripSuf_append (p r : Str) : stripSuf p (r ++ p) = some r :=
  stripSuf_eq_some.mpr rfl

theorem trim_trim (s : Str) : trim (trim s) = trim s := by
  have h1 : List.dropWhile ws (trim s) = trim s := by
    rw [List.dropWhile_eq_self_iff]
    intro hl
    have hpre : trim s <+: List.dropWhile ws s := List.rdropWhile_prefix ws _
    have hlen : 0 < (List.dropWhile ws s).length :=
      lt_of_lt_of_le hl hpre.length_le
    have hget := List.IsPrefix.getElem hpre hl
    have hnot := List.dropWhile_get_zero_not (p := ws) s hlen
    simp only [List.get_eq_getElem] at hnot ⊢
    rw [hget]
    exact hnot
  show List.rdropWhile ws (List.dropWhile ws (trim s)) = trim s
  rw [h1]
  exact List.rdropWhile_idempotent ws _

theorem append_eq_append_suffix {l r u c : List Char} (h : l ++ r = u ++ c)
    (hlen : c.length ≤ r.length) : ∃ m, r = m ++ c := by
  refine ⟨u.drop l.length, ?_⟩
  have hlu : l.length ≤ u.length := by
    have hlen2 := congrArg List.length h
    simp only [List.length_append] at hlen2
    omega
  have hr : r = (l ++ r).drop l.length := (List.drop_left l r).symm
  rw [hr, h, List.drop_append_eq_append_drop]
  have h0 : l.length - u.length = 0 := by omega
  rw [h0, List.drop_zero]

theorem curly_decomp {t : Str} (h1 : startsWith exprOpen t = true)
    (h2 : endsWith exprClose t = true) :
    ∃ body, t = exprOpen ++ body ++ exprClose := by
  obtain ⟨r, rfl⟩ := startsWith_iff.mp h1
  obtain ⟨u, hu⟩ := endsWith_iff.mp h2
  match r with
  | [] => exact absurd h2 (by decide)
  | [a] =>
    exfalso
    by_cases ha : a = '\x7d'
    · subst ha
      exact absurd h2 (by decide)
    · rw [endsWith, stripSuf] at h2
      have hnone : stripPre exprClose.reverse ((exprOpen ++ [a]).reverse)
          = none := by
        simp only [exprOpen, exprClose, List.reverse_append,
          List.reverse_cons, List.reverse_nil, List.nil_append,
          List.cons_append, List.singleton_append]
        simp [stripPre, Ne.symm ha]
      rw [hnone] at h2
      simp at h2
  | a :: b :: r2 =>
    have hlen : exprClose.length ≤ (a :: b :: r2).length := by
      simp [exprClose]
    obtain ⟨m, hm⟩ := append_eq_append_suffix hu hlen
    exact ⟨m, by rw [hm, ← List.append_assoc]⟩

theorem fromCurly_eq_some {s : Str} {e : ExplicitExpr} :
    ExplicitExpr.fromCurly s = some e ↔
      startsWith exprOpen (trim s) = true
        ∧ endsWith exprClose (trim s) = true ∧ e = ⟨s⟩ := by
  rw [ExplicitExpr.fromCurly]
  by_cases hs : startsWith exprOpen (trim s) <;>
    by_cases he : endsWith exprClose (trim s) <;>
      simp [hs, he, eq_comm]

theorem asBare_of_decomp {e : ExplicitExpr} {body : Str}
    (h : e.asCurly = exprOpen ++ body ++ exprClose) :
    e.asBare = some (trim body) := by
  rw [ExplicitExpr.asBare, h, List.append_assoc, stripPre_append]
  simp [stripSuf_append]

theorem asBare_of_fromCurly {s : Str} {e : ExplicitExpr}
    (h : ExplicitExpr.fromCurly s = some e) :
    ∃ body, e.asCurly = exprOpen ++ body ++ exprClose
      ∧ e.asBare = some (trim body) := by
  obtain ⟨h1, h2, rfl⟩ := fromCurly_eq_some.mp h
  obtain ⟨body, hb⟩ := curly_decomp h1 h2
  have hc : (ExplicitExpr.mk s).asCurly = exprOpen ++ body ++ exprClose := hb
  exact ⟨body, hc, asBare_of_decomp hc⟩

theorem findCharIdx_eq_none_of_not_contains {c : Char} {s : Str}
    (h : containsChar c s = false) : findCharIdx c s = none := by
  induction s with
  | nil => rfl
  | cons x xs ih =>
    rw [containsChar] at h
    rw [Bool.or_eq_false_iff] at h
    have hx : ¬x = c := by
      intro hxc
      rw [hxc] at h
      simp at h
    rw [findCharIdx, if_neg hx, ih h.2]
    rfl

theorem findCharIdx_drop_ne_nil {c : Char} : ∀ (s : Str) (atPos : Nat),
    findCharIdx c s = some atPos → (List.drop atPos s).isEmpty = false := by
  intro s
  induction s with
  | nil => intro atPos h; simp [findCharIdx] at h
  | cons x xs ih =>
    intro atPos h
    rw [findCharIdx] at h
    by_cases hx : x = c
    · rw [if_pos hx] at h
      cases h
      simp
    · rw [if_neg hx] at h
      rw [Option.map_eq_some'] at h
      obtain ⟨n, hn, rfl⟩ := h
      rw [List.drop_succ_cons]
      exact ih n hn

theorem ite_count_step (b : Bool) (n : Nat) :
    (if b then n + 1 else n) = n + b.toNat := by
  cases b <;> simp

theorem count_true_cons (b : Bool) (l : List Bool) :
    List.count true (b :: l) = b.toNat + List.count true l := by
  cases b <;> simp [List.count_cons, Nat.add_comm]

theorem count_eq_presenceCount (e : Events) :
    Events.count e = (Events.presenceFlags e).count true := by
  simp only [Events.count, Events.presenceFlags, ite_count_step,
    count_true_cons, List.count_nil]
  omega

/-- A concrete `Events` record with exactly four specified triggers (two in
the `Default` state and two in the `Body` state). -/
def eventsExample : Events where
  branch_protection_rule := .Missing
  check_run := .Missing
  check_suite := .Missing
  discussion := .Missing
  discussion_comment := .Missing
  issue_comment := .Missing
  issues := .Missing
  label := .Missing
  merge_group := .Missing
  milestone := .Missing
  project := .Missing
  project_card := .Missing
  project_column := .Missing
  pull_request := .Default
  pull_request_comment := .Missing
  pull_request_review := .Missing
  pull_request_review_comment := .Missing
  pull_request_target := .Missing
  push := .Body ⟨none, none, none⟩
  registry_package := .Missing
  release := .Missing
  repository_dispatch := .Missing
  schedule := .Body []
  watch := .Default
  workflow_call := .Missing
  workflow_dispatch := .Missing
  workflow_run := .Missing

/-! Claim theorems. -/

/-- C1: `LoE<String>` decoding attempts the expression interpretation before
the literal one: if the trimmed input starts with the opening delimiter and
ends with the closing one, the result is the `Expr` variant holding the
input unchanged, and otherwise the `Literal` variant holding the input text
unchanged; in particular the expression example decodes to the `Expr`
variant with bare form `expr`, `plain` decodes to `Literal`, and the
malformed unterminated example falls back to `Literal` of the raw text. -/
theorem c1_loe_string_expr_before_literal (s : Str) :
    loeStringDeserialize s =
      (if startsWith exprOpen (trim s) && endsWith exprClose (trim s)
        then LoE.Expr ⟨s⟩ else LoE.Literal s)
    ∧ loeStringDeserialize (chars ("$\x7b\x7b expr \x7d\x7d"))
        = LoE.Expr ⟨chars ("$\x7b\x7b expr \x7d\x7d")⟩
    ∧ (ExplicitExpr.mk (chars ("$\x7b\x7b expr \x7d\x7d"))).asBare
        = some (chars ("expr"))
    ∧ loeStringDeserialize (chars ("plain")) = LoE.Literal (chars ("plain"))
    ∧ loeStringDeserialize (chars ("$\x7b\x7b unterminated"))
        = LoE.Literal (chars ("$\x7b\x7b unterminated")) := by
  refine ⟨?_, by decide, by decide, by decide, by decide⟩
  rw [loeStringDeserialize, explicitExprDeserialize, ExplicitExpr.fromCurly]
  by_cases hs : startsWith exprOpen (trim s) <;>
    by_cases he : endsWith exprClose (trim s) <;> simp [hs, he]

/-- C5: `Uses` parsing dispatches in a fixed first-match-wins order: a `./`
input is a Local reference holding the whole string verbatim (`@` kept as
data), otherwise a `docker://` input is parsed as Docker on the stripped
remainder, and every other input is parsed as Repository; the example local
path is stored unsplit. -/
theorem c5_uses_dispatch (s : Str) :
    (startsWith (chars ("./")) s = true → Uses.fromStr s = .ok (.Local ⟨s⟩))
    ∧ (startsWith (chars ("./")) s = false →
        ∀ image, stripPre (chars ("docker://")) s = some image →
          Uses.fromStr s = (DockerUses.fromStr image).map Uses.Docker)
    ∧ (startsWith (chars ("./")) s = false →
        stripPre (chars ("docker://")) s = none →
          Uses.fromStr s = (RepositoryUses.fromStr s).map Uses.Repository)
    ∧ Uses.fromStr (chars ("./.github/actions/x@weird"))
        = .ok (.Local ⟨chars ("./.github/actions/x@weird")⟩) := by
  refine ⟨?_, ?_, ?_, by decide⟩
  · intro h
    simp [Uses.fromStr, h, LocalUses.fromStr, Except.map]
  · intro h image himg
    simp [Uses.fromStr, h, himg]
  · intro h hnone
    simp [Uses.fromStr, h, hnone]

/-- C9: decoding a runner-selection value in the group shape fails iff both
the group name is absent and the labels list is empty; with a group name or
a non-empty labels list it succeeds, and a bare target-label shape is never
subject to the check. -/
theorem c9_runs_on_group_invariant :
    (∀ (g : Option Str) (ls : List Str),
      ((∃ msg, RunsOn.validate (.Group g ls) = .error msg) ↔
        g = none ∧ ls = [])
      ∧ (¬(g = none ∧ ls = []) →
          RunsOn.validate (.Group g ls) = .ok (.Group g ls)))
    ∧ (∀ ls : List Str, RunsOn.validate (.Target ls) = .ok (.Target ls)) := by
  constructor
  · intro g ls
    have hcond : (g.isNone && ls.isEmpty) = true ↔ (g = none ∧ ls = []) := by
      simp [Option.isNone_iff_eq_none, List.isEmpty_iff]
    by_cases hb : (g.isNone && ls.isEmpty) = true
    · constructor
      · simp only [RunsOn.validate, hb, if_true]
        simp [hcond.mp hb]
      · intro hcontra
        exact absurd (hcond.mp hb) hcontra
    · constructor
      · simp only [RunsOn.validate, hb, if_false]
        simp only [Bool.not_eq_true] at hb
        simp [hcond.symm, hb]
      · intro _
        simp [RunsOn.validate, hb]
  · intro ls
    rfl

/-- C9 witness: a group shape with a group name and empty labels is
accepted. -/
theorem c9_witness :
    ¬((some (chars ("g")) : Option Str) = none ∧ ([] : List Str) = [])
    ∧ RunsOn.validate (.Group (some (chars ("g"))) [])
        = .ok (.Group (some (chars ("g"))) []) :=
  ⟨by decide,
    (c9_runs_on_group_invariant.1 (some (chars ("g"))) []).2 (by decide)⟩

/-- C10: every `ExplicitExpr` obtained through `from_curly` or through
deserialization satisfies the construction invariant, so `as_bare` never
reaches its fatal invariant-violation branch (modelled as `none`): stripping
the delimiters from the trimmed text always succeeds. -/
theorem c10_as_bare_never_fatal (s : Str) (e : ExplicitExpr) :
    (ExplicitExpr.fromCurly s = some e → ∃ b, e.asBare = some b)
    ∧ (explicitExprDeserialize s = .ok e → ∃ b, e.asBare = some b) := by
  have key : ExplicitExpr.fromCurly s = some e → ∃ b, e.asBare = some b := by
    intro h
    obtain ⟨body, _, hb⟩ := asBare_of_fromCurly h
    exact ⟨trim body, hb⟩
  refine ⟨key, ?_⟩
  intro h
  apply key
  unfold explicitExprDeserialize at h
  split at h
  · next e' heq =>
    cases h
    exact heq
  · next heq =>
    cases h

theorem repositoryFromStr_spec (s path : Str) (gref : Option Str)
    (hsplit : (match rsplitOnce '@' s with
      | some (p, r) => (p, some r)
      | none => (s, (none : Option Str))) = (path, gref)) :
    (∀ c0 c1 rest, splitn3 '/' path = c0 :: c1 :: rest →
      RepositoryUses.fromStr s = .ok ⟨c0, c1, rest.head?, gref⟩)
    ∧ ((splitn3 '/' path).length < 2 →
      RepositoryUses.fromStr s
        = .error ⟨chars ("owner/repo slug is too short: ") ++ s⟩) := by
  unfold RepositoryUses.fromStr
  rw [hsplit]
  dsimp only
  constructor
  · intro c0 c1 rest hc
    rw [hc]
  · intro hlen
    cases hsp : splitn3 '/' path with
    | nil => rfl
    | cons a t =>
      cases t with
      | nil => rfl
      | cons b t2 =>
        rw [hsp] at hlen
        simp at hlen
        omega

/-- C2: for every input with neither a `./` nor a `docker://` prefix,
repository parsing splits on the last `@` (the part after it, if any,
becoming the ref), then splits the remaining path on `/` into at most three
components; it errors iff there are fewer than two components, and otherwise
the owner, repo and optional opaque subpath are the components in order; the
example parses as stated. -/
theorem c2_repository_reference_parse (s : Str)
    (h1 : startsWith (chars ("./")) s = false)
    (h2 : stripPre (chars ("docker://")) s = none) :
    (∀ path gref, rsplitOnce '@' s = some (path, gref) →
      ((∃ err, Uses.fromStr s = .error err) ↔ (splitn3 '/' path).length < 2)
      ∧ ∀ c0 c1 rest, splitn3 '/' path = c0 :: c1 :: rest →
          Uses.fromStr s = .ok (.Repository ⟨c0, c1, rest.head?, some gref⟩))
    ∧ (rsplitOnce '@' s = none →
      ((∃ err, Uses.fromStr s = .error err) ↔ (splitn3 '/' s).length < 2)
      ∧ ∀ c0 c1 rest, splitn3 '/' s = c0 :: c1 :: rest →
          Uses.fromStr s = .ok (.Repository ⟨c0, c1, rest.head?, none⟩))
    ∧ Uses.fromStr (chars ("actions/aws/ec2@abcd"))
        = .ok (.Repository ⟨chars ("actions"), chars ("aws"),
            some (chars ("ec2")), some (chars ("abcd"))⟩) := by
  have hline : Uses.fromStr s
      = (RepositoryUses.fromStr s).map Uses.Repository := by
    simp [Uses.fromStr, h1, h2]
  have main : ∀ path gref,
      (match rsplitOnce '@' s with
        | some (p, r) => (p, some r)
        | none => (s, (none : Option Str))) = (path, gref) →
      ((∃ err, Uses.fromStr s = .error err) ↔ (splitn3 '/' path).length < 2)
      ∧ ∀ c0 c1 rest, splitn3 '/' path = c0 :: c1 :: rest →
          Uses.fromStr s = .ok (.Repository ⟨c0, c1, rest.head?, gref⟩) := by
    intro path gref hsplit
    obtain ⟨hok, herr⟩ := repositoryFromStr_spec s path gref hsplit
    constructor
    · constructor
      · rintro ⟨err, he⟩
        by_contra hlen
        push_neg at hlen
        cases hsp : splitn3 '/' path with
        | nil => rw [hsp] at hlen; simp at hlen
        | cons a t =>
          cases t with
          | nil => rw [hsp] at hlen; simp at hlen
          | cons b t2 =>
            rw [hline, hok a b t2 hsp] at he
            simp [Except.map] at he
      · intro hlen
        refine ⟨⟨chars ("owner/repo slug is too short: ") ++ s⟩, ?_⟩
        rw [hline, herr hlen]
        rfl
    · intro c0 c1 rest hc
      rw [hline, hok c0 c1 rest hc]
      rfl
  refine ⟨?_, ?_, by decide⟩
  · intro path gref hr
    exact main path (some gref) (by rw [hr])
  · intro hr
    exact main s none (by rw [hr])

/-- C3: evaluation of the Docker parser at the divergence point. The code
returns `tag = none` and treats everything after the first `@` as the
digest, and a non-empty digest behaves as the claim states, but a trailing
bare `@` yields `hash = some ""` rather than `none`: the `is_empty`
normalization check runs on the substring that still contains the `@`
itself, which the third conjunct proves is never empty, so the check never
fires. -/
theorem c3_docker_digest_eval :
    Uses.fromStr (chars ("docker://alpine@"))
        = .ok (.Docker ⟨none, chars ("alpine"), none, some []⟩)
    ∧ Uses.fromStr (chars ("docker://alpine@sha"))
        = .ok (.Docker ⟨none, chars ("alpine"), none, some (chars ("sha"))⟩)
    ∧ ∀ (img : Str) (atPos : Nat), findCharIdx '@' img = some atPos →
        (List.drop atPos img).isEmpty = false := by
  refine ⟨by decide, by decide, ?_⟩
  intro img atPos h
  exact findCharIdx_drop_ne_nil img atPos h

/-- C3 witness: the dead-branch fact instantiated at the failing input. -/
theorem c3_witness :
    findCharIdx '@' (chars ("alpine@")) = some 6
    ∧ (List.drop 6 (chars ("alpine@"))).isEmpty = false :=
  ⟨by decide, c3_docker_digest_eval.2.2 (chars ("alpine@")) 6 (by decide)⟩

/-- C4: Docker parsing splits on the first `/` and keeps the left segment as
the registry iff it is `localhost` or contains `.` or `:`; when the image
portion contains no `@`, it splits on the first `:` into image and tag with
an empty tag normalized to `none` and no digest; the example parses as
stated. -/
theorem c4_docker_registry_and_tag (s : Str) :
    (∀ ri : Option Str × Str,
      (match splitOnce '/' s with
        | some (registry, image) =>
          if DockerUses.isRegistry registry then (some registry, image)
          else (none, s)
        | none => ((none : Option Str), s)) = ri →
      containsChar '@' ri.2 = false →
      DockerUses.fromStr s =
        .ok { registry := ri.1,
              image := (match splitOnce ':' ri.2 with
                | some (image, []) => (image, (none : Option Str))
                | some (image, tag) => (image, some tag)
                | none => (ri.2, none)).1,
              tag := (match splitOnce ':' ri.2 with
                | some (image, []) => (image, (none : Option Str))
                | some (image, tag) => (image, some tag)
                | none => (ri.2, none)).2,
              hash := none })
    ∧ Uses.fromStr (chars ("docker://ghcr.io/foo/alpine"))
        = .ok (.Docker ⟨some (chars ("ghcr.io")), chars ("foo/alpine"),
            none, none⟩) := by
  refine ⟨?_, by decide⟩
  intro ri hri hno
  have hfind : findCharIdx '@' ri.2 = none :=
    findCharIdx_eq_none_of_not_contains hno
  unfold DockerUses.fromStr
  rw [hri]
  dsimp only
  rw [hfind]

/-- C4 witness: the general part instantiated at the example input. -/
theorem c4_witness :
    containsChar '@' (chars ("foo/alpine")) = false
    ∧ DockerUses.fromStr (chars ("ghcr.io/foo/alpine"))
        = .ok { registry := some (chars ("ghcr.io")),
                image := chars ("foo/alpine"), tag := none, hash := none } :=
  ⟨by decide,
    (c4_docker_registry_and_tag (chars ("ghcr.io/foo/alpine"))).1
      (some (chars ("ghcr.io")), chars ("foo/alpine")) (by decide) (by decide)⟩

/-- C6: in the reusable-workflow context, validation of a successfully
parsed reference fails iff the reference is Repository-kind with no ref,
Local-kind with `@` anywhere in its path (substring scan), or Docker-kind;
the three rejected examples and the accepted example behave as stated. -/
theorem c6_reusable_validation :
    (∀ s u, Uses.fromStr s = .ok u →
      ((∃ msg, reusableStepUses s = .error msg) ↔
        (∃ r, u = .Repository r ∧ r.git_ref = none)
        ∨ (∃ l, u = .Local l ∧ containsChar '@' l.path = true)
        ∨ (∃ d, u = .Docker d))
      ∧ (reusableStepUses s = .ok u ↔
          ¬((∃ r, u = .Repository r ∧ r.git_ref = none)
            ∨ (∃ l, u = .Local l ∧ containsChar '@' l.path = true)
            ∨ (∃ d, u = .Docker d))))
    ∧ (∃ msg, reusableStepUses (chars ("owner/repo/path.yml")) = .error msg)
    ∧ (∃ msg, reusableStepUses (chars ("./path.yml@abcd")) = .error msg)
    ∧ (∃ msg, reusableStepUses (chars ("docker://alpine")) = .error msg)
    ∧ reusableStepUses (chars ("owner/repo/path.yml@abcd"))
        = .ok (.Repository ⟨chars ("owner"), chars ("repo"),
            some (chars ("path.yml")), some (chars ("abcd"))⟩) := by
  refine ⟨?_,
    ⟨chars ("repo action must have `@<ref>` in reusable workflow"),
      by decide⟩,
    ⟨chars ("local reusable workflow reference can't specify `@<ref>`"),
      by decide⟩,
    ⟨chars ("docker action invalid in reusable workflow `uses`"),
      by decide⟩,
    by decide⟩
  intro s u h
  have hstep : stepUses s = .ok u := by
    rw [stepUses, h]
  match u with
  | .Repository r =>
    by_cases hr : r.git_ref.isNone
    · have hrn : r.git_ref = none := Option.isNone_iff_eq_none.mp hr
      constructor
      · simp [reusableStepUses, hstep, hr, hrn]
      · simp [reusableStepUses, hstep, hr, hrn]
    · have hrn : ¬r.git_ref = none := by
        simpa [Option.isNone_iff_eq_none] using hr
      constructor
      · simp [reusableStepUses, hstep, hr, hrn]
      · simp [reusableStepUses, hstep, hr, hrn]
  | .Local l =>
    by_cases hl : containsChar '@' l.path
    · constructor
      · simp [reusableStepUses, hstep, hl]
      · simp [reusableStepUses, hstep, hl]
    · constructor
      · simp [reusableStepUses, hstep, hl]
      · simp [reusableStepUses, hstep, hl]
  | .Docker d =>
    constructor
    · simp [reusableStepUses, hstep]
    · simp [reusableStepUses, hstep]

/-- C6 witness: the general characterization instantiated at the accepted
example. -/
theorem c6_witness :
    Uses.fromStr (chars ("a/b@r"))
        = .ok (.Repository ⟨chars ("a"), chars ("b"), none, some (chars ("r"))⟩)
    ∧ (reusableStepUses (chars ("a/b@r"))
        = .ok (.Repository ⟨chars ("a"), chars ("b"), none,
            some (chars ("r"))⟩) ↔
        ¬((∃ r, (Uses.Repository ⟨chars ("a"), chars ("b"), none,
              some (chars ("r"))⟩) = .Repository r ∧ r.git_ref = none)
          ∨ (∃ l, (Uses.Repository ⟨chars ("a"), chars ("b"), none,
              some (chars ("r"))⟩) = .Local l
                ∧ containsChar '@' l.path = true)
          ∨ (∃ d, (Uses.Repository ⟨chars ("a"), chars ("b"), none,
              some (chars ("r"))⟩) = .Docker d))) :=
  ⟨by decide,
    ((c6_reusable_validation.1 (chars ("a/b@r"))
      (.Repository ⟨chars ("a"), chars ("b"), none, some (chars ("r"))⟩)
      (by decide)).2)⟩

/-- C7: decoding an `OptionalBody` field maps an absent key to `Missing`, a
present null key to `Default`, and a present concrete value to `Body`; and
`Events::count` returns exactly the number of event-trigger fields whose
state is not `Missing`, so a record with exactly four specified triggers (in
any combination of `Default` or `Body` states) counts exactly 4. -/
theorem c7_optional_body_and_count :
    (∀ (T : Type) (v : T),
      decodeOptionalBodyField (YamlField.Absent : YamlField T)
          = OptionalBody.Missing
      ∧ decodeOptionalBodyField (YamlField.Present (none : Option T))
          = OptionalBody.Default
      ∧ decodeOptionalBodyField (YamlField.Present (some v))
          = OptionalBody.Body v)
    ∧ (∀ e : Events, Events.count e = (Events.presenceFlags e).count true)
    ∧ (∀ e : Events, (Events.presenceFlags e).count true = 4 →
        Events.count e = 4) := by
  refine ⟨fun T v => ⟨rfl, rfl, rfl⟩, count_eq_presenceCount, ?_⟩
  intro e h
  rw [count_eq_presenceCount, h]

/-- C7 witness: a record with four specified triggers counts 4. -/
theorem c7_witness :
    (Events.presenceFlags eventsExample).count true = 4
    ∧ Events.count eventsExample = 4 :=
  ⟨by decide, c7_optional_body_and_count.2.2 eventsExample (by decide)⟩

/-- C8: for every string accepted by `from_curly`, the expression stores the
original untrimmed text, `as_curly` is exactly the trimmed text, `as_bare`
strips exactly the outer delimiters and the whitespace around the body
(leaving interior whitespace untouched), and `from_curly (as_curly e)`
round-trips to an expression with the same curly and bare forms; the
concrete example behaves as stated. -/
theorem c8_from_curly_roundtrip (s : Str) (e : ExplicitExpr)
    (h : ExplicitExpr.fromCurly s = some e) :
    e.asRaw = s
    ∧ e.asCurly = trim s
    ∧ (∃ body, trim s = exprOpen ++ body ++ exprClose
        ∧ e.asBare = some (trim body))
    ∧ ExplicitExpr.fromCurly e.asCurly = some ⟨e.asCurly⟩
    ∧ (ExplicitExpr.mk e.asCurly).asCurly = e.asCurly
    ∧ (ExplicitExpr.mk e.asCurly).asBare = e.asBare
    ∧ ExplicitExpr.fromCurly (chars ("  $\x7b\x7b foo  \x7d\x7d \t"))
        = some ⟨chars ("  $\x7b\x7b foo  \x7d\x7d \t")⟩
    ∧ (ExplicitExpr.mk (chars ("  $\x7b\x7b foo  \x7d\x7d \t"))).asCurly
        = chars ("$\x7b\x7b foo  \x7d\x7d")
    ∧ (ExplicitExpr.mk (chars ("  $\x7b\x7b foo  \x7d\x7d \t"))).asBare
        = some (chars ("foo")) := by
  obtain ⟨body, hb, hbare⟩ := asBare_of_fromCurly h
  obtain ⟨h1, h2, rfl⟩ := fromCurly_eq_some.mp h
  have hc : (ExplicitExpr.mk s).asCurly = trim s := rfl
  have htt := trim_trim s
  have hcc : (ExplicitExpr.mk (trim s)).asCurly = trim s := htt
  refine ⟨rfl, rfl, ⟨body, hb, hbare⟩, ?_, ?_, ?_, by decide, by decide,
    by decide⟩
  · rw [hc]
    exact fromCurly_eq_some.mpr
      ⟨by rw [htt]; exact h1, by rw [htt]; exact h2, rfl⟩
  · rw [hc]
    exact hcc
  · rw [hc]
    show ExplicitExpr.asBare _ = ExplicitExpr.asBare _
    unfold ExplicitExpr.asBare
    rw [hcc, hc]

/-- C8 witness: the round trip at the concrete example input. -/
theorem c8_witness :
    ExplicitExpr.fromCurly (chars ("  $\x7b\x7b foo  \x7d\x7d \t"))
        = some ⟨chars ("  $\x7b\x7b foo  \x7d\x7d \t")⟩
    ∧ (ExplicitExpr.mk (chars ("  $\x7b\x7b foo  \x7d\x7d \t"))).asRaw
        = chars ("  $\x7b\x7b foo  \x7d\x7d \t") :=
  ⟨by decide,
    (c8_from_curly_roundtrip (chars ("  $\x7b\x7b foo  \x7d\x7d \t"))
      ⟨chars ("  $\x7b\x7b foo  \x7d\x7d \t")⟩ (by decide)).1⟩

/-- C2 witness: the general characterization instantiated at the example. -/
theorem c2_witness :
    Uses.fromStr (chars ("actions/aws/ec2@abcd"))
        = .ok (.Repository ⟨chars ("actions"), chars ("aws"),
            some (chars ("ec2")), some (chars ("abcd"))⟩) :=
  (c2_repository_reference_parse (chars ("actions/aws/ec2@abcd"))
    (by decide) (by decide)).2.2

/-- C5 witness: the dispatch theorem instantiated at a local input. -/
theorem c5_witness :
    startsWith (chars ("./")) (chars ("./x")) = true
    ∧ Uses.fromStr (chars ("./x")) = .ok (.Local ⟨chars ("./x")⟩) :=
  ⟨by decide, (c5_uses_dispatch (chars ("./x"))).1 (by decide)⟩

/-- C10 witness: a concrete constructed expression has a bare form. -/
theorem c10_witness :
    ExplicitExpr.fromCurly (chars ("$\x7b\x7b x \x7d\x7d"))
        = some ⟨chars ("$\x7b\x7b x \x7d\x7d")⟩
    ∧ ∃ b, (ExplicitExpr.mk (chars ("$\x7b\x7b x \x7d\x7d"))).asBare
        = some b :=
  ⟨by decide,
    (c10_as_bare_never_fatal (chars ("$\x7b\x7b x \x7d\x7d"))
      ⟨chars ("$\x7b\x7b x \x7d\x7d")⟩).1 (by decide)⟩

end GAM
